import Mathlib

/-!
Verification development for the orbital-pursuit game core
(source: src/src/App.tsx).

The source is a React component; we shallowly embed its core game logic:
board geometry and move validity, the periodic sensor-visibility rule,
the turn-resolution state machine (the `handlePlayerMove` event handler
and `resolveTurn`), the reactive effect that synchronizes the last
observed Evader position, and the heuristic AI move selection
(`pickAIMove`).  React batches the state updates of one event handler,
so each handler is modelled as a pure state-to-state function; the
derived observation effect is applied after every event because the
component re-runs it once its dependencies (screen, phase, visibility,
Evader position) change.  Uniform random tie-breaking in the AI is
modelled by exposing the candidate list in move order together with an
arbitrary random index.
-/

namespace OrbitalPursuit

/-- Board position: column x, lane y (integers, as in the source). -/
structure Pos where
  x : Int
  y : Int
deriving DecidableEq, Repr

/-- Player A is the Evader (Blue), player B the Pursuer (Red). -/
inductive Player
  | A
  | B
deriving DecidableEq, Repr

/-- Screen flow of the app; only matchScreen hosts the game. -/
inductive Screen
  | home
  | instructions
  | aiRoleSelect
  | matchScreen
deriving DecidableEq, Repr

/-- Match phase. -/
inductive MatchPhase
  | playing
  | gameover
deriving DecidableEq, Repr

/-- Match mode. -/
inductive Mode
  | hotseat
  | ai
deriving DecidableEq, Repr

def GRID_W : Int := 12

def GRID_H : Int := 5

def A_MIN_X : Int := 5

def A_MAX_X : Int := 9

def WIN_TIME : Nat := 2

def MAX_TURNS : Nat := 20

/-- Chebyshev distance between two positions. -/
def chebyshevDist (p1 p2 : Pos) : Int :=
  max |p1.x - p2.x| |p1.y - p2.y|

/-- Lane index to signed column delta. -/
def moveDxFromOrb (selectedY : Int) : Int :=
  selectedY - 2

/-- Observation rule: every 4 turns the first 2 are visible, the next 2 hidden. -/
def redHasVisionThisTurn (turn : Nat) : Bool :=
  (turn - 1) % 4 < 2

/-- Policy key, matching the export key order ax,ay,bx,by,lock,turn. -/
def makeBluePolicyKey (a b : Pos) (lockStreak currentTurn : Nat) : String :=
  toString a.x ++ "," ++ toString a.y ++ "," ++ toString b.x ++ "," ++
    toString b.y ++ "," ++ toString lockStreak ++ "," ++ toString currentTurn

/-- Validity of a lane choice for a player starting at a given column. -/
def isValidMove (player : Player) (fromX selectedY : Int) : Bool :=
  if selectedY < 0 ∨ GRID_H ≤ selectedY then false
  else
    match player with
    | Player.A =>
        decide (A_MIN_X ≤ fromX + moveDxFromOrb selectedY ∧
          fromX + moveDxFromOrb selectedY ≤ A_MAX_X)
    | Player.B =>
        decide (0 ≤ fromX + moveDxFromOrb selectedY ∧
          fromX + moveDxFromOrb selectedY < GRID_W)

/-- All legal lanes for a player starting at a given column. -/
def getValidOrbs (player : Player) (fromX : Int) : List Int :=
  [0, 1, 2, 3, 4].filter fun y => isValidMove player fromX y

/-- Destination position from a position and a chosen lane. -/
def calcNextPos (p : Pos) (selectedY : Int) : Pos :=
  ⟨p.x + moveDxFromOrb selectedY, selectedY⟩

def INITIAL_A_POS : Pos := ⟨7, 2⟩

def INITIAL_B_POS : Pos := ⟨1, 2⟩

/-- The aggregate component state relevant to the game core. -/
structure MatchState where
  screen : Screen
  mode : Option Mode
  humanRole : Option Player
  bluePolicy : Option (List (String × Int))
  matchPhase : MatchPhase
  currentPlayer : Player
  aPos : Pos
  bPos : Pos
  redObservedA : Pos
  pendingAMove : Option Pos
  turn : Nat
  bTimeInRange : Nat
  winner : Option Player
  hotseatHandoff : Option (Player × Nat)
deriving DecidableEq, Repr

/-- The state of the freshly mounted component. -/
def initialState : MatchState :=
  { screen := Screen.home
    mode := none
    humanRole := none
    bluePolicy := none
    matchPhase := MatchPhase.playing
    currentPlayer := Player.A
    aPos := INITIAL_A_POS
    bPos := INITIAL_B_POS
    redObservedA := INITIAL_A_POS
    pendingAMove := none
    turn := 1
    bTimeInRange := 0
    winner := none
    hotseatHandoff := none }

/-- Full match reset. -/
def resetMatchCore (s : MatchState) : MatchState :=
  { s with
    aPos := INITIAL_A_POS
    bPos := INITIAL_B_POS
    redObservedA := INITIAL_A_POS
    turn := 1
    bTimeInRange := 0
    winner := none
    currentPlayer := Player.A
    pendingAMove := none
    matchPhase := MatchPhase.playing
    hotseatHandoff := none }

/-- Start a hotseat match. -/
def startHotseat (s : MatchState) : MatchState :=
  { resetMatchCore { s with mode := some Mode.hotseat, humanRole := none } with
    screen := Screen.matchScreen }

/-- Start an AI match with the human playing the given role. -/
def startAIMatch (s : MatchState) (role : Player) : MatchState :=
  { resetMatchCore { s with mode := some Mode.ai, humanRole := some role } with
    screen := Screen.matchScreen }

/-- Derived: whether the Pursuer has vision on the current turn. -/
def redVisionNow (s : MatchState) : Bool :=
  redHasVisionThisTurn s.turn

/-- Derived: hidden-turn contact alert. -/
def hiddenContactSignal (s : MatchState) : Bool :=
  !redVisionNow s && decide (chebyshevDist s.aPos s.bPos ≤ 1)

/-- The reactive effect that records the observed Evader position whenever
the match is being played on a visible turn. -/
def applyObservationEffect (s : MatchState) : MatchState :=
  if s.screen ≠ Screen.matchScreen then s
  else if s.matchPhase ≠ MatchPhase.playing then s
  else if redVisionNow s = false then s
  else { s with redObservedA := s.aPos }

/-- Lock-streak update computed during resolution. -/
def newTimeInRange (s : MatchState) (finalA nextB : Pos) : Nat :=
  if chebyshevDist finalA nextB ≤ 1 then s.bTimeInRange + 1 else 0

/-- Simultaneous resolution of both committed moves: update positions and
the lock streak, then check the win conditions with Pursuer priority,
else advance the turn. -/
def resolveTurn (s : MatchState) (finalA nextB : Pos) : MatchState :=
  if WIN_TIME ≤ newTimeInRange s finalA nextB then
    { s with
      aPos := finalA, bPos := nextB, bTimeInRange := newTimeInRange s finalA nextB,
      matchPhase := MatchPhase.gameover, winner := some Player.B,
      hotseatHandoff := none }
  else if MAX_TURNS ≤ s.turn then
    { s with
      aPos := finalA, bPos := nextB, bTimeInRange := newTimeInRange s finalA nextB,
      matchPhase := MatchPhase.gameover, winner := some Player.A,
      hotseatHandoff := none }
  else
    { s with
      aPos := finalA, bPos := nextB, bTimeInRange := newTimeInRange s finalA nextB,
      turn := s.turn + 1, currentPlayer := Player.A, pendingAMove := none,
      hotseatHandoff :=
        if s.mode = some Mode.hotseat ∧ redHasVisionThisTurn s.turn = false
        then some (Player.A, s.turn + 1) else none }

/-- The move event handler: an Evader commit buffers the move, a Pursuer
commit triggers resolution; all guards fail silently. -/
def handlePlayerMove (s : MatchState) (selectedY : Int) : MatchState :=
  if s.screen ≠ Screen.matchScreen ∨ s.matchPhase ≠ MatchPhase.playing then s
  else if s.mode = some Mode.hotseat ∧ s.hotseatHandoff ≠ none then s
  else if s.currentPlayer = Player.A then
    if isValidMove Player.A s.aPos.x selectedY = false then s
    else
      { s with
        pendingAMove := some (calcNextPos s.aPos selectedY),
        currentPlayer := Player.B }
  else
    if isValidMove Player.B s.bPos.x selectedY = false then s
    else resolveTurn s (s.pendingAMove.getD s.aPos) (calcNextPos s.bPos selectedY)

/-- Legal lanes for the mover inside the AI routine. -/
def aiValidMoves (s : MatchState) (player : Player) : List Int :=
  match player with
  | Player.A => getValidOrbs Player.A s.aPos.x
  | Player.B => getValidOrbs Player.B s.bPos.x

/-- Evader heuristic score of a lane: maximize distance with a mild
center preference. -/
def blueScore (s : MatchState) (y : Int) : Int :=
  let nextA := calcNextPos s.aPos y
  chebyshevDist nextA s.bPos * 10 + -|nextA.x - 7|

/-- Pursuer heuristic score of a lane under partial observability. -/
def redScore (s : MatchState) (y : Int) : Int :=
  let nextB := calcNextPos s.bPos y
  let targetA := if redVisionNow s = true then s.aPos else s.redObservedA
  let distToTarget := chebyshevDist targetA nextB
  let base := -distToTarget * 10 + -|nextB.x - targetA.x|
  let withLock :=
    if distToTarget ≤ 1 then
      base + 120 + (if WIN_TIME ≤ s.bTimeInRange + 1 then 100 else 0)
    else base
  if redVisionNow s = false ∧ hiddenContactSignal s = true then
    withLock + 25 + -(chebyshevDist nextB s.bPos) * 4
  else withLock

/-- One step of the argmax loop: the accumulator holds the best score so
far (none meaning minus infinity) and the tied best lanes in order. -/
def bestStep (score : Int → Int) (acc : Option Int × List Int) (y : Int) :
    Option Int × List Int :=
  match acc with
  | (none, _) => (some (score y), [y])
  | (some b, best) =>
    if b < score y then (some (score y), [y])
    else if score y = b then (some b, best ++ [y])
    else (some b, best)

/-- The list of maximum-score lanes, in move order. -/
def bestByScore (score : Int → Int) (moves : List Int) : List Int :=
  (moves.foldl (bestStep score) (none, [])).2

/-- Outcome of the Evader policy lookup: the action, if the policy is
loaded, the key is present, and the action is legal. -/
def bluePolicyHit (s : MatchState) : Option Int :=
  match s.bluePolicy with
  | none => none
  | some pol =>
    match pol.lookup (makeBluePolicyKey s.aPos s.bPos s.bTimeInRange s.turn) with
    | none => none
    | some a => if isValidMove Player.A s.aPos.x a then some a else none

/-- The set of lanes the AI may return (the uniform random draw picks
among them): the neutral lane when no legal lane exists, the policy
action when the Evader lookup hits, else the heuristic maximizers. -/
def pickAIMoveCandidates (s : MatchState) (player : Player) : List Int :=
  if aiValidMoves s player = [] then [2]
  else
    match player with
    | Player.A =>
      match bluePolicyHit s with
      | some a => [a]
      | none => bestByScore (blueScore s) (aiValidMoves s player)
    | Player.B => bestByScore (redScore s) (aiValidMoves s player)

/-- AI move selection; r models the random draw used for tie-breaking. -/
def pickAIMove (s : MatchState) (player : Player) (r : Nat) : Int :=
  (pickAIMoveCandidates s player).getD (r % (pickAIMoveCandidates s player).length) 2

/-- Pursuer lane score exactly as the specification phrases it, for
comparison against the implementation score. -/
def redScoreSpec (s : MatchState) (y : Int) : Int :=
  let target := if redHasVisionThisTurn s.turn = true then s.aPos else s.redObservedA
  let next := calcNextPos s.bPos y
  let d := chebyshevDist target next
  (-10) * d - |next.x - target.x|
    + (if d ≤ 1 then 120 + (if WIN_TIME ≤ s.bTimeInRange + 1 then 100 else 0) else 0)
    + (if redHasVisionThisTurn s.turn = false ∧ hiddenContactSignal s = true
       then 25 - 4 * chebyshevDist next s.bPos else 0)

/-- All states reachable from a fresh mount through the user-facing
events: policy load, navigation, match starts, handoff dismissal, and
move commits; the observation effect re-runs after every event. -/
inductive Reachable : MatchState → Prop
  | mount : Reachable initialState
  | policyLoad (s : MatchState) (pol : Option (List (String × Int))) :
      Reachable s → Reachable (applyObservationEffect { s with bluePolicy := pol })
  | hotseatStart (s : MatchState) :
      Reachable s → Reachable (applyObservationEffect (startHotseat s))
  | aiStart (s : MatchState) (role : Player) :
      Reachable s → Reachable (applyObservationEffect (startAIMatch s role))
  | goHome (s : MatchState) :
      Reachable s →
        Reachable (applyObservationEffect
          { s with screen := Screen.home, hotseatHandoff := none })
  | goInstructions (s : MatchState) :
      Reachable s →
        Reachable (applyObservationEffect { s with screen := Screen.instructions })
  | goAiRoleSelect (s : MatchState) :
      Reachable s →
        Reachable (applyObservationEffect { s with screen := Screen.aiRoleSelect })
  | handoffReady (s : MatchState) :
      Reachable s →
        Reachable (applyObservationEffect { s with hotseatHandoff := none })
  | move (s : MatchState) (lane : Int) :
      Reachable s → Reachable (applyObservationEffect (handlePlayerMove s lane))

/-- The core safety invariant: turn bounds and column bands. -/
def StateInv (s : MatchState) : Prop :=
  1 ≤ s.turn ∧ s.turn ≤ MAX_TURNS ∧
  A_MIN_X ≤ s.aPos.x ∧ s.aPos.x ≤ A_MAX_X ∧
  0 ≤ s.bPos.x ∧ s.bPos.x < GRID_W ∧
  (∀ q, s.pendingAMove = some q → A_MIN_X ≤ q.x ∧ q.x ≤ A_MAX_X)

/-- Concrete mid-match state at turn 20 with one lock already banked,
about to resolve a second consecutive lock. -/
def c2WitnessState : MatchState :=
  { screen := Screen.matchScreen
    mode := some Mode.ai
    humanRole := some Player.B
    bluePolicy := none
    matchPhase := MatchPhase.playing
    currentPlayer := Player.B
    aPos := ⟨7, 2⟩
    bPos := ⟨6, 2⟩
    redObservedA := ⟨7, 2⟩
    pendingAMove := some ⟨7, 2⟩
    turn := 20
    bTimeInRange := 1
    winner := none
    hotseatHandoff := none }

/-- Concrete mid-match state at turn 2 (visible), about to resolve into
turn 3 (hidden). -/
def c1CexState : MatchState :=
  { screen := Screen.matchScreen
    mode := some Mode.ai
    humanRole := some Player.B
    bluePolicy := none
    matchPhase := MatchPhase.playing
    currentPlayer := Player.B
    aPos := ⟨7, 2⟩
    bPos := ⟨1, 2⟩
    redObservedA := ⟨7, 2⟩
    pendingAMove := some ⟨8, 3⟩
    turn := 2
    bTimeInRange := 0
    winner := none
    hotseatHandoff := none }

/-- Concrete mid-match state whose next resolution leaves the roles far
apart, so the running lock streak is wiped back to zero. -/
def c6WitnessState : MatchState :=
  { screen := Screen.matchScreen
    mode := some Mode.ai
    humanRole := some Player.B
    bluePolicy := none
    matchPhase := MatchPhase.playing
    currentPlayer := Player.B
    aPos := ⟨7, 2⟩
    bPos := ⟨1, 2⟩
    redObservedA := ⟨7, 2⟩
    pendingAMove := some ⟨9, 2⟩
    turn := 5
    bTimeInRange := 1
    winner := none
    hotseatHandoff := none }

/-- Concrete state carrying a one-entry policy table whose lookup hits the
current situation with a legal action. -/
def c4PolicyState : MatchState :=
  { initialState with
    screen := Screen.matchScreen
    bluePolicy := some [(makeBluePolicyKey ⟨7, 2⟩ ⟨1, 2⟩ 0 1, 0)] }

lemma isValidMove_A_band {fx y : Int} (h : isValidMove Player.A fx y = true) :
    A_MIN_X ≤ fx + moveDxFromOrb y ∧ fx + moveDxFromOrb y ≤ A_MAX_X ∧
    0 ≤ y ∧ y < GRID_H := by
  unfold isValidMove at h
  dsimp only at h
  split_ifs at h with hy
  push_neg at hy
  simp only [decide_eq_true_eq] at h
  exact ⟨h.1, h.2, hy.1, hy.2⟩

lemma isValidMove_B_band {fx y : Int} (h : isValidMove Player.B fx y = true) :
    0 ≤ fx + moveDxFromOrb y ∧ fx + moveDxFromOrb y < GRID_W ∧
    0 ≤ y ∧ y < GRID_H := by
  unfold isValidMove at h
  dsimp only at h
  split_ifs at h with hy
  push_neg at hy
  simp only [decide_eq_true_eq] at h
  exact ⟨h.1, h.2, hy.1, hy.2⟩

lemma mem_getValidOrbs {player : Player} {fx y : Int} :
    y ∈ getValidOrbs player fx ↔
      y ∈ [(0 : Int), 1, 2, 3, 4] ∧ isValidMove player fx y = true := by
  unfold getValidOrbs
  simp [List.mem_filter]

lemma isValidMove_mem_getValidOrbs {player : Player} {fx y : Int}
    (h : isValidMove player fx y = true) : y ∈ getValidOrbs player fx := by
  have hy : 0 ≤ y ∧ y < GRID_H := by
    cases player with
    | A => exact ⟨(isValidMove_A_band h).2.2.1, (isValidMove_A_band h).2.2.2⟩
    | B => exact ⟨(isValidMove_B_band h).2.2.1, (isValidMove_B_band h).2.2.2⟩
  refine mem_getValidOrbs.mpr ⟨?_, h⟩
  obtain ⟨hy1, hy2⟩ := hy
  have hy5 : y < 5 := hy2
  interval_cases y <;> simp

lemma bestStep_foldl (score : Int → Int) :
    ∀ (moves processed : List Int) (b : Int),
      (∀ z ∈ processed, score z ≤ b) →
      (∃ z ∈ processed, score z = b) →
      ∃ c, (∀ z ∈ processed ++ moves, score z ≤ c) ∧
        (∃ z ∈ processed ++ moves, score z = c) ∧
        List.foldl (bestStep score)
            (some b, processed.filter fun y => decide (score y = b)) moves
          = (some c, (processed ++ moves).filter fun y => decide (score y = c)) := by
  intro moves
  induction moves with
  | nil =>
    intro processed b h1 h2
    exact ⟨b, by simpa using h1, by simpa using h2, by simp⟩
  | cons m ms ih =>
    intro processed b h1 h2
    rw [List.foldl_cons]
    have hl : (processed ++ [m]) ++ ms = processed ++ m :: ms := by simp
    rcases lt_trichotomy b (score m) with hgt | heq | hlt
    · have hstep : bestStep score
          (some b, processed.filter fun y => decide (score y = b)) m
          = (some (score m), [m]) := by
        simp [bestStep, hgt]
      rw [hstep]
      have hfil : [m] = (processed ++ [m]).filter fun y => decide (score y = score m) := by
        rw [List.filter_append]
        have hnil : processed.filter (fun y => decide (score y = score m)) = [] := by
          apply List.filter_eq_nil_iff.mpr
          intro z hz
          have := h1 z hz
          simp only [decide_eq_true_eq]
          omega
        rw [hnil]
        simp
      rw [hfil]
      obtain ⟨c, hc1, hc2, hc3⟩ := ih (processed ++ [m]) (score m)
        (by
          intro z hz
          rcases List.mem_append.mp hz with hz | hz
          · exact le_of_lt (lt_of_le_of_lt (h1 z hz) hgt)
          · simp at hz
            subst hz
            exact le_rfl)
        ⟨m, by simp⟩
      rw [hl] at hc1 hc2 hc3
      exact ⟨c, hc1, hc2, hc3⟩
    · have hstep : bestStep score
          (some b, processed.filter fun y => decide (score y = b)) m
          = (some b, (processed ++ [m]).filter fun y => decide (score y = b)) := by
        simp [bestStep, heq, List.filter_append]
      rw [hstep]
      obtain ⟨c, hc1, hc2, hc3⟩ := ih (processed ++ [m]) b
        (by
          intro z hz
          rcases List.mem_append.mp hz with hz | hz
          · exact h1 z hz
          · simp at hz
            subst hz
            omega)
        (by
          obtain ⟨z, hz, hze⟩ := h2
          exact ⟨z, List.mem_append.mpr (Or.inl hz), hze⟩)
      rw [hl] at hc1 hc2 hc3
      exact ⟨c, hc1, hc2, hc3⟩
    · have hstep : bestStep score
          (some b, processed.filter fun y => decide (score y = b)) m
          = (some b, (processed ++ [m]).filter fun y => decide (score y = b)) := by
        have hne : ¬(score m = b) := by omega
        have hnl : ¬(b < score m) := by omega
        simp [bestStep, hne, hnl, List.filter_append]
      rw [hstep]
      obtain ⟨c, hc1, hc2, hc3⟩ := ih (processed ++ [m]) b
        (by
          intro z hz
          rcases List.mem_append.mp hz with hz | hz
          · exact h1 z hz
          · simp at hz
            subst hz
            omega)
        (by
          obtain ⟨z, hz, hze⟩ := h2
          exact ⟨z, List.mem_append.mpr (Or.inl hz), hze⟩)
      rw [hl] at hc1 hc2 hc3
      exact ⟨c, hc1, hc2, hc3⟩

lemma bestByScore_spec (score : Int → Int) (moves : List Int) (h : moves ≠ []) :
    ∃ c, (∀ z ∈ moves, score z ≤ c) ∧ (∃ z ∈ moves, score z = c) ∧
      bestByScore score moves = moves.filter fun y => decide (score y = c) := by
  cases moves with
  | nil => exact absurd rfl h
  | cons m ms =>
    unfold bestByScore
    rw [List.foldl_cons]
    have hstep : bestStep score (none, []) m = (some (score m), [m]) := rfl
    rw [hstep]
    have hfil : [m] = [m].filter fun y => decide (score y = score m) := by simp
    rw [hfil]
    obtain ⟨c, hc1, hc2, hc3⟩ := bestStep_foldl score ms [m] (score m)
      (by simp) ⟨m, by simp⟩
    have hl : [m] ++ ms = m :: ms := by simp
    rw [hl] at hc1 hc2 hc3
    exact ⟨c, hc1, hc2, by rw [hc3]⟩

lemma bestByScore_eq_filter (score : Int → Int) (moves : List Int) (h : moves ≠ []) :
    bestByScore score moves
      = moves.filter fun y => moves.all fun z => decide (score z ≤ score y) := by
  obtain ⟨c, h1, h2, h3⟩ := bestByScore_spec score moves h
  rw [h3]
  apply List.filter_congr
  intro y hy
  obtain ⟨z0, hz0, hz0e⟩ := h2
  by_cases hyc : score y = c
  · have hall : (moves.all fun z => decide (score z ≤ score y)) = true := by
      simp only [List.all_eq_true, decide_eq_true_eq]
      intro z hz
      calc score z ≤ c := h1 z hz
        _ = score y := hyc.symm
    rw [hall]
    simp [hyc]
  · have hnall : (moves.all fun z => decide (score z ≤ score y)) = false := by
      apply List.all_eq_false.mpr
      refine ⟨z0, hz0, ?_⟩
      have hlt : score y < c := lt_of_le_of_ne (h1 y hy) hyc
      simp only [decide_eq_true_eq]
      omega
    rw [hnall]
    simp [hyc]

lemma bestByScore_sub (score : Int → Int) (moves : List Int) :
    ∀ y ∈ bestByScore score moves, y ∈ moves := by
  cases hm : moves with
  | nil => intro y hy; simp [bestByScore] at hy
  | cons m ms =>
    obtain ⟨c, _, _, h3⟩ := bestByScore_spec score (m :: ms) (by simp)
    rw [h3]
    intro y hy
    exact (List.mem_filter.mp hy).1

lemma bestByScore_ne_nil (score : Int → Int) (moves : List Int) (h : moves ≠ []) :
    bestByScore score moves ≠ [] := by
  obtain ⟨c, _, ⟨z, hz, hze⟩, h3⟩ := bestByScore_spec score moves h
  rw [h3]
  intro hnil
  have hmem : z ∈ moves.filter fun y => decide (score y = c) :=
    List.mem_filter.mpr ⟨hz, by simp [hze]⟩
  rw [hnil] at hmem
  exact absurd hmem (List.not_mem_nil z)

lemma getD_mod_mem (l : List Int) (h : l ≠ []) (r : Nat) :
    l.getD (r % l.length) 2 ∈ l := by
  have hl : 0 < l.length := List.length_pos.mpr h
  have hlt : r % l.length < l.length := Nat.mod_lt _ hl
  rw [List.getD_eq_getElem l 2 hlt]
  exact List.getElem_mem hlt

lemma handlePlayerMove_resolve (s : MatchState) (lane : Int)
    (h1 : s.screen = Screen.matchScreen) (h2 : s.matchPhase = MatchPhase.playing)
    (h3 : ¬(s.mode = some Mode.hotseat ∧ s.hotseatHandoff ≠ none))
    (h4 : s.currentPlayer = Player.B)
    (h5 : isValidMove Player.B s.bPos.x lane = true) :
    handlePlayerMove s lane
      = resolveTurn s (s.pendingAMove.getD s.aPos) (calcNextPos s.bPos lane) := by
  unfold handlePlayerMove
  rw [if_neg (by simp [h1, h2]), if_neg h3, if_neg (by simp [h4]),
    if_neg (by simp [h5])]

lemma stateInv_effect {s : MatchState} (h : StateInv s) :
    StateInv (applyObservationEffect s) := by
  unfold applyObservationEffect
  split_ifs <;> exact h

lemma stateInv_handle {s : MatchState} (lane : Int) (h : StateInv s) :
    StateInv (handlePlayerMove s lane) := by
  obtain ⟨ht1, ht2, ha1, ha2, hb1, hb2, hp⟩ := h
  unfold handlePlayerMove
  split_ifs with g1 g2 g3 g4 g5
  · exact ⟨ht1, ht2, ha1, ha2, hb1, hb2, hp⟩
  · exact ⟨ht1, ht2, ha1, ha2, hb1, hb2, hp⟩
  · exact ⟨ht1, ht2, ha1, ha2, hb1, hb2, hp⟩
  · -- Evader commit: the pending move stays in band
    refine ⟨ht1, ht2, ha1, ha2, hb1, hb2, ?_⟩
    intro q hq
    simp only [Option.some.injEq] at hq
    have hv : isValidMove Player.A s.aPos.x lane = true := by
      cases hvv : isValidMove Player.A s.aPos.x lane with
      | false => exact absurd hvv g4
      | true => rfl
    obtain ⟨hq1, hq2, _, _⟩ := isValidMove_A_band hv
    rw [← hq]
    exact ⟨hq1, hq2⟩
  · exact ⟨ht1, ht2, ha1, ha2, hb1, hb2, hp⟩
  · -- Pursuer commit: resolution
    have hv : isValidMove Player.B s.bPos.x lane = true := by
      cases hvv : isValidMove Player.B s.bPos.x lane with
      | false => exact absurd hvv g5
      | true => rfl
    obtain ⟨hn1, hn2, _, _⟩ := isValidMove_B_band hv
    have hfa : A_MIN_X ≤ (s.pendingAMove.getD s.aPos).x ∧
        (s.pendingAMove.getD s.aPos).x ≤ A_MAX_X := by
      cases hpa : s.pendingAMove with
      | none => simpa [hpa] using ⟨ha1, ha2⟩
      | some q => simpa [hpa] using hp q hpa
    unfold resolveTurn
    have hturn1 : 1 ≤ s.turn + 1 := by omega
    split_ifs with r1 r2
    · exact ⟨ht1, ht2, hfa.1, hfa.2, hn1, hn2, hp⟩
    · exact ⟨ht1, ht2, hfa.1, hfa.2, hn1, hn2, hp⟩
    all_goals
      have hturn2 : s.turn + 1 ≤ MAX_TURNS := by omega
    all_goals
      exact ⟨hturn1, hturn2, hfa.1, hfa.2, hn1, hn2, fun q hq => by simp at hq⟩

lemma stateInv_initial : StateInv initialState := by
  refine ⟨by decide, by decide, by decide, by decide, by decide, by decide, ?_⟩
  intro q hq
  simp [initialState] at hq

lemma stateInv_reset (s : MatchState) : StateInv (resetMatchCore s) := by
  unfold StateInv resetMatchCore
  norm_num [INITIAL_A_POS, INITIAL_B_POS, MAX_TURNS, A_MIN_X, A_MAX_X, GRID_W]
  intro q hq
  exact absurd hq (by simp)

lemma reachable_inv {s : MatchState} (h : Reachable s) : StateInv s := by
  induction h with
  | mount => exact stateInv_initial
  | policyLoad s pol _ ih => exact stateInv_effect ih
  | hotseatStart s _ _ =>
    exact stateInv_effect (by
      have hr := stateInv_reset { s with mode := some Mode.hotseat, humanRole := none }
      exact hr)
  | aiStart s role _ _ =>
    exact stateInv_effect (by
      have hr := stateInv_reset { s with mode := some Mode.ai, humanRole := some role }
      exact hr)
  | goHome s _ ih => exact stateInv_effect ih
  | goInstructions s _ ih => exact stateInv_effect ih
  | goAiRoleSelect s _ ih => exact stateInv_effect ih
  | handoffReady s _ ih => exact stateInv_effect ih
  | move s lane _ ih => exact stateInv_effect (stateInv_handle lane ih)

lemma bluePolicyHit_valid {s : MatchState} {a : Int} (h : bluePolicyHit s = some a) :
    isValidMove Player.A s.aPos.x a = true := by
  unfold bluePolicyHit at h
  cases hbp : s.bluePolicy with
  | none => rw [hbp] at h; cases h
  | some pol =>
    rw [hbp] at h
    dsimp only at h
    cases hlk : pol.lookup (makeBluePolicyKey s.aPos s.bPos s.bTimeInRange s.turn) with
    | none => rw [hlk] at h; cases h
    | some b =>
      rw [hlk] at h
      dsimp only at h
      split_ifs at h with hv
      cases h
      exact hv

lemma pickAIMoveCandidates_ne_nil (s : MatchState) (player : Player) :
    pickAIMoveCandidates s player ≠ [] := by
  unfold pickAIMoveCandidates
  split_ifs with hnil
  · simp
  · cases player with
    | A =>
      dsimp only
      cases hhit : bluePolicyHit s with
      | none => exact bestByScore_ne_nil _ _ hnil
      | some a => simp
    | B => exact bestByScore_ne_nil _ _ hnil

lemma pickAIMove_mem (s : MatchState) (player : Player) (r : Nat) :
    pickAIMove s player r ∈ pickAIMoveCandidates s player := by
  unfold pickAIMove
  exact getD_mod_mem _ (pickAIMoveCandidates_ne_nil s player) r

lemma streak_foldl_trailing (ds : List Int) :
    ds.foldl (fun streak d => if d ≤ 1 then streak + 1 else 0) 0
      = (ds.reverse.takeWhile fun d => decide (d ≤ 1)).length := by
  induction ds using List.reverseRecOn with
  | nil => rfl
  | append_singleton ds d ih =>
    rw [List.foldl_append, List.foldl_cons, List.foldl_nil, List.reverse_append]
    by_cases hd : d ≤ 1
    · simp [hd, ih]
    · simp [hd]

/-- C9: the visibility rule is a pure function of the turn number that is
periodic with period 4; turns 1, 2, 3, 4 give true, true, false, false;
for every turn t ≥ 1 it is visible exactly when ((t - 1) mod 4) < 2. -/
theorem c9_visibility_periodic :
    (∀ t : Nat, 1 ≤ t → redHasVisionThisTurn (t + 4) = redHasVisionThisTurn t)
    ∧ redHasVisionThisTurn 1 = true ∧ redHasVisionThisTurn 2 = true
    ∧ redHasVisionThisTurn 3 = false ∧ redHasVisionThisTurn 4 = false
    ∧ (∀ t : Nat, 1 ≤ t → (redHasVisionThisTurn t = true ↔ (t - 1) % 4 < 2)) := by
  refine ⟨?_, by decide, by decide, by decide, by decide, ?_⟩
  · intro t ht
    unfold redHasVisionThisTurn
    have he : t + 4 - 1 = (t - 1) + 4 := by omega
    rw [he, Nat.add_mod_right]
  · intro t ht
    unfold redHasVisionThisTurn
    simp

/-- Witness for C9: the periodicity and the closed form, instantiated at
turns 5 and 6. -/
theorem c9_visibility_periodic_witness :
    redHasVisionThisTurn (5 + 4) = redHasVisionThisTurn 5 ∧
    (redHasVisionThisTurn 6 = true ↔ (6 - 1) % 4 < 2) :=
  ⟨c9_visibility_periodic.1 5 (by norm_num),
   c9_visibility_periodic.2.2.2.2.2 6 (by norm_num)⟩

/-- C10: in every state reachable from a fresh mount through any sequence
of events (commits, resets, navigation, policy loads), the turn counter
stays within [1, MAX_TURNS], i.e. within [1, 20]. -/
theorem c10_turn_bounded :
    ∀ s : MatchState, Reachable s → 1 ≤ s.turn ∧ s.turn ≤ MAX_TURNS := by
  intro s hs
  obtain ⟨h1, h2, _⟩ := reachable_inv hs
  exact ⟨h1, h2⟩

/-- Witness for C10 at the initial state. -/
theorem c10_turn_bounded_witness :
    1 ≤ initialState.turn ∧ initialState.turn ≤ MAX_TURNS :=
  c10_turn_bounded initialState Reachable.mount

/-- C7: every lane accepted by the validity module yields an in-band
column (Evader within [5, 9], Pursuer within [0, 12)), the two quoted
lane sets are exactly as claimed, and consequently both positions remain
in band in every reachable state. -/
theorem c7_in_band :
    (∀ (p : Pos) (y : Int), y ∈ getValidOrbs Player.A p.x →
      A_MIN_X ≤ (calcNextPos p y).x ∧ (calcNextPos p y).x ≤ A_MAX_X)
    ∧ (∀ (p : Pos) (y : Int), y ∈ getValidOrbs Player.B p.x →
      0 ≤ (calcNextPos p y).x ∧ (calcNextPos p y).x < GRID_W)
    ∧ getValidOrbs Player.A 5 = [2, 3, 4]
    ∧ getValidOrbs Player.A 7 = [0, 1, 2, 3, 4]
    ∧ (∀ s : MatchState, Reachable s →
        A_MIN_X ≤ s.aPos.x ∧ s.aPos.x ≤ A_MAX_X ∧
        0 ≤ s.bPos.x ∧ s.bPos.x < GRID_W) := by
  refine ⟨?_, ?_, by decide, by decide, ?_⟩
  · intro p y hy
    have hv := (mem_getValidOrbs.mp hy).2
    obtain ⟨h1, h2, _, _⟩ := isValidMove_A_band hv
    exact ⟨h1, h2⟩
  · intro p y hy
    have hv := (mem_getValidOrbs.mp hy).2
    obtain ⟨h1, h2, _, _⟩ := isValidMove_B_band hv
    exact ⟨h1, h2⟩
  · intro s hs
    obtain ⟨_, _, h3, h4, h5, h6, _⟩ := reachable_inv hs
    exact ⟨h3, h4, h5, h6⟩

/-- Witness for C7: a concrete legal Evader lane from column 7 lands in
band, and the initial reachable state is in band. -/
theorem c7_in_band_witness :
    (A_MIN_X ≤ (calcNextPos INITIAL_A_POS 4).x ∧
      (calcNextPos INITIAL_A_POS 4).x ≤ A_MAX_X)
    ∧ (A_MIN_X ≤ initialState.aPos.x ∧ initialState.aPos.x ≤ A_MAX_X ∧
       0 ≤ initialState.bPos.x ∧ initialState.bPos.x < GRID_W) :=
  ⟨c7_in_band.1 INITIAL_A_POS 4 (by decide),
   c7_in_band.2.2.2.2 initialState Reachable.mount⟩

/-- C8: a commit with an illegal lane (including a lane outside 0..4) or
made while the phase is not Playing leaves the whole state unchanged and
raises nothing: the handler is a total function returning the state. -/
theorem c8_illegal_noop :
    ∀ (s : MatchState) (lane : Int),
      (s.matchPhase ≠ MatchPhase.playing
        ∨ (s.currentPlayer = Player.A ∧ isValidMove Player.A s.aPos.x lane = false)
        ∨ (s.currentPlayer = Player.B ∧ isValidMove Player.B s.bPos.x lane = false)) →
      handlePlayerMove s lane = s := by
  intro s lane h
  unfold handlePlayerMove
  split_ifs with g1 g2 g3 g4 g5
  · rfl
  · rfl
  · rfl
  · exfalso
    push_neg at g1
    rcases h with h | ⟨hA, hA2⟩ | ⟨hB, hB2⟩
    · exact h g1.2
    · exact g4 hA2
    · rw [g3] at hB
      simp at hB
  · rfl
  · exfalso
    push_neg at g1
    rcases h with h | ⟨hA, hA2⟩ | ⟨hB, hB2⟩
    · exact h g1.2
    · exact g3 hA
    · exact g5 hB2

/-- Witness for C8: an out-of-range lane at the initial state changes
nothing. -/
theorem c8_illegal_noop_witness :
    handlePlayerMove initialState 7 = initialState :=
  c8_illegal_noop initialState 7 (Or.inr (Or.inl ⟨rfl, by decide⟩))

/-- C2: the lock-streak win check strictly precedes the turn-limit check:
whenever one resolution both reaches the streak threshold and lands on the
final turn, the match ends with the Pursuer as winner, never the Evader. -/
theorem c2_pursuer_priority :
    ∀ (s : MatchState) (lane : Int),
      s.screen = Screen.matchScreen → s.matchPhase = MatchPhase.playing →
      ¬(s.mode = some Mode.hotseat ∧ s.hotseatHandoff ≠ none) →
      s.currentPlayer = Player.B →
      isValidMove Player.B s.bPos.x lane = true →
      chebyshevDist (s.pendingAMove.getD s.aPos) (calcNextPos s.bPos lane) ≤ 1 →
      WIN_TIME ≤ s.bTimeInRange + 1 →
      MAX_TURNS ≤ s.turn →
      (handlePlayerMove s lane).matchPhase = MatchPhase.gameover ∧
      (handlePlayerMove s lane).winner = some Player.B := by
  intro s lane h1 h2 h3 h4 h5 hd hw ht
  rw [handlePlayerMove_resolve s lane h1 h2 h3 h4 h5]
  unfold resolveTurn
  rw [if_pos]
  · exact ⟨rfl, rfl⟩
  · unfold newTimeInRange
    rw [if_pos hd]
    exact hw

/-- Witness for C2: a resolution that banks the second lock on turn 20
ends with the Pursuer winning. -/
theorem c2_pursuer_priority_witness :
    (handlePlayerMove c2WitnessState 2).matchPhase = MatchPhase.gameover ∧
    (handlePlayerMove c2WitnessState 2).winner = some Player.B :=
  c2_pursuer_priority c2WitnessState 2 rfl rfl (by decide) rfl (by decide)
    (by decide) (by decide) (by decide)

/-- C6: every resolution sets the lock streak to streak + 1 exactly when
the post-resolution Chebyshev distance is ≤ 1 and to exactly 0 otherwise;
the observation effect never touches the streak; and iterating that very
update over any sequence of resolved distances always equals the count of
consecutive trailing distances ≤ 1 — so the streak counts the consecutive
immediately-preceding locked turns in every reachable state. -/
theorem c6_lock_streak :
    (∀ (s : MatchState) (lane : Int),
      s.screen = Screen.matchScreen → s.matchPhase = MatchPhase.playing →
      ¬(s.mode = some Mode.hotseat ∧ s.hotseatHandoff ≠ none) →
      s.currentPlayer = Player.B →
      isValidMove Player.B s.bPos.x lane = true →
      (handlePlayerMove s lane).bTimeInRange =
        (if chebyshevDist (s.pendingAMove.getD s.aPos) (calcNextPos s.bPos lane) ≤ 1
         then s.bTimeInRange + 1 else 0))
    ∧ (∀ s : MatchState, (applyObservationEffect s).bTimeInRange = s.bTimeInRange)
    ∧ (∀ ds : List Int,
        ds.foldl (fun streak d => if d ≤ 1 then streak + 1 else 0) 0
          = (ds.reverse.takeWhile fun d => decide (d ≤ 1)).length) := by
  refine ⟨?_, ?_, streak_foldl_trailing⟩
  · intro s lane h1 h2 h3 h4 h5
    rw [handlePlayerMove_resolve s lane h1 h2 h3 h4 h5]
    unfold resolveTurn newTimeInRange
    split_ifs <;> rfl
  · intro s
    unfold applyObservationEffect
    split_ifs <;> rfl

/-- Witness for C6: a resolution that breaks the lock resets the streak
from 1 to 0. -/
theorem c6_lock_streak_witness :
    (handlePlayerMove c6WitnessState 2).bTimeInRange =
      (if chebyshevDist (c6WitnessState.pendingAMove.getD c6WitnessState.aPos)
          (calcNextPos c6WitnessState.bPos 2) ≤ 1
       then c6WitnessState.bTimeInRange + 1 else 0) :=
  c6_lock_streak.1 c6WitnessState 2 rfl rfl (by decide) rfl (by decide)

/-- C1 counterexample: at turn 2 — a visible turn — a Pursuer commit
resolves the turn without ending the game, yet the last observed Evader
position stays at its stale value and differs from the new true position,
because the observation effect runs after the turn counter has already
advanced to the hidden turn 3.  This refutes the claim that the update is
decided by the visibility of the turn just completed. -/
theorem c1_observation_counterexample :
    redHasVisionThisTurn c1CexState.turn = true ∧
    (applyObservationEffect (handlePlayerMove c1CexState 3)).matchPhase
      = MatchPhase.playing ∧
    (applyObservationEffect (handlePlayerMove c1CexState 3)).turn
      = c1CexState.turn + 1 ∧
    (applyObservationEffect (handlePlayerMove c1CexState 3)).aPos = ⟨8, 3⟩ ∧
    (applyObservationEffect (handlePlayerMove c1CexState 3)).redObservedA = ⟨7, 2⟩ ∧
    (⟨7, 2⟩ : Pos) ≠ ⟨8, 3⟩ := by
  decide

lemma applyObservationEffect_redObservedA (s : MatchState) :
    (applyObservationEffect s).redObservedA =
      (if s.screen = Screen.matchScreen ∧ s.matchPhase = MatchPhase.playing ∧
          redHasVisionThisTurn s.turn = true
       then s.aPos else s.redObservedA) := by
  unfold applyObservationEffect redVisionNow
  split_ifs <;> simp_all

/-- C1 (amended): when a Pursuer commit resolves turn t without ending the
game, the last observed Evader position is set to the new true Evader
position exactly when the NEW turn t + 1 is visible, and is left
unchanged when turn t + 1 is hidden. -/
theorem c1_observation_update :
    ∀ (s : MatchState) (lane : Int),
      s.screen = Screen.matchScreen → s.matchPhase = MatchPhase.playing →
      ¬(s.mode = some Mode.hotseat ∧ s.hotseatHandoff ≠ none) →
      s.currentPlayer = Player.B →
      isValidMove Player.B s.bPos.x lane = true →
      ¬(WIN_TIME ≤ newTimeInRange s (s.pendingAMove.getD s.aPos)
          (calcNextPos s.bPos lane)) →
      s.turn < MAX_TURNS →
      (applyObservationEffect (handlePlayerMove s lane)).redObservedA =
        (if redHasVisionThisTurn (s.turn + 1) = true
         then s.pendingAMove.getD s.aPos else s.redObservedA) := by
  intro s lane h1 h2 h3 h4 h5 hnw hnt
  rw [handlePlayerMove_resolve s lane h1 h2 h3 h4 h5]
  unfold resolveTurn
  rw [if_neg hnw, if_neg (by omega)]
  rw [applyObservationEffect_redObservedA]
  simp [h1, h2]

/-- Witness for the amended C1: the concrete turn-2 resolution. -/
theorem c1_observation_update_witness :
    (applyObservationEffect (handlePlayerMove c1CexState 3)).redObservedA =
      (if redHasVisionThisTurn (c1CexState.turn + 1) = true
       then c1CexState.pendingAMove.getD c1CexState.aPos
       else c1CexState.redObservedA) :=
  c1_observation_update c1CexState 3 rfl rfl (by decide) rfl (by decide)
    (by decide) (by decide)

/-- C3: blind planning — the Pursuer AI never reads the committed but
unresolved Evader move: two states identical except in the value or
presence of pendingAMove produce identical lane scores, identical
candidate sets, and the identical selected lane under the same random
draw. -/
theorem c3_blind_planning :
    (∀ (s : MatchState) (p : Option Pos) (y : Int),
      redScore { s with pendingAMove := p } y = redScore s y)
    ∧ (∀ (s : MatchState) (p : Option Pos),
      pickAIMoveCandidates { s with pendingAMove := p } Player.B
        = pickAIMoveCandidates s Player.B)
    ∧ (∀ (s : MatchState) (p : Option Pos) (r : Nat),
      pickAIMove { s with pendingAMove := p } Player.B r
        = pickAIMove s Player.B r) :=
  ⟨fun _ _ _ => rfl, fun _ _ => rfl, fun _ _ _ => rfl⟩

/-- C4: the Evader AI decision order — a loaded policy entry that is legal
for the current column is returned immediately; otherwise the AI returns
a lane of maximal heuristic score 10·dist − |x − 7| over the legal lanes,
uniformly among exact ties; with no legal lane it returns the neutral
lane 2; and its answer is always legal when a legal lane exists. -/
theorem c4_evader_ai :
    (∀ (s : MatchState) (a : Int), bluePolicyHit s = some a →
      pickAIMoveCandidates s Player.A = [a] ∧ ∀ r, pickAIMove s Player.A r = a)
    ∧ (∀ s : MatchState, bluePolicyHit s = none →
        getValidOrbs Player.A s.aPos.x ≠ [] →
        pickAIMoveCandidates s Player.A =
          (getValidOrbs Player.A s.aPos.x).filter fun y =>
            (getValidOrbs Player.A s.aPos.x).all fun z =>
              decide (blueScore s z ≤ blueScore s y))
    ∧ (∀ s : MatchState, getValidOrbs Player.A s.aPos.x = [] →
        pickAIMoveCandidates s Player.A = [2])
    ∧ (∀ (s : MatchState) (y : Int), getValidOrbs Player.A s.aPos.x ≠ [] →
        y ∈ pickAIMoveCandidates s Player.A → isValidMove Player.A s.aPos.x y = true)
    ∧ (∀ (s : MatchState) (r : Nat),
        pickAIMove s Player.A r ∈ pickAIMoveCandidates s Player.A) := by
  refine ⟨?_, ?_, ?_, ?_, fun s r => pickAIMove_mem s Player.A r⟩
  · intro s a h
    have hv := bluePolicyHit_valid h
    have hmem := isValidMove_mem_getValidOrbs hv
    have hne : ¬(aiValidMoves s Player.A = []) := by
      intro hnil
      rw [show aiValidMoves s Player.A = getValidOrbs Player.A s.aPos.x from rfl]
        at hnil
      rw [hnil] at hmem
      exact List.not_mem_nil a hmem
    have hc : pickAIMoveCandidates s Player.A = [a] := by
      unfold pickAIMoveCandidates
      rw [if_neg hne]
      dsimp only
      rw [h]
    refine ⟨hc, fun r => ?_⟩
    unfold pickAIMove
    rw [hc]
    simp [Nat.mod_one]
  · intro s h hne
    have hne2 : ¬(aiValidMoves s Player.A = []) := hne
    unfold pickAIMoveCandidates
    rw [if_neg hne2]
    dsimp only
    rw [h]
    exact bestByScore_eq_filter (blueScore s) _ hne
  · intro s hnil
    have hnil2 : aiValidMoves s Player.A = [] := hnil
    unfold pickAIMoveCandidates
    rw [if_pos hnil2]
  · intro s y hne hy
    have hne2 : ¬(aiValidMoves s Player.A = []) := hne
    unfold pickAIMoveCandidates at hy
    rw [if_neg hne2] at hy
    dsimp only at hy
    cases hhit : bluePolicyHit s with
    | some a =>
      rw [hhit] at hy
      dsimp only at hy
      have hya : y = a := by simpa using hy
      rw [hya]
      exact bluePolicyHit_valid hhit
    | none =>
      rw [hhit] at hy
      dsimp only at hy
      have hmem := bestByScore_sub (blueScore s) _ y hy
      exact (mem_getValidOrbs.mp hmem).2

/-- Witness for C4: the one-entry policy state returns the table action
immediately, and the policy-free initial state returns exactly the
maximizers of the heuristic. -/
theorem c4_evader_ai_witness :
    pickAIMoveCandidates c4PolicyState Player.A = [0] ∧
    pickAIMove c4PolicyState Player.A 5 = 0 ∧
    pickAIMoveCandidates initialState Player.A =
      (getValidOrbs Player.A initialState.aPos.x).filter (fun y =>
        (getValidOrbs Player.A initialState.aPos.x).all fun z =>
          decide (blueScore initialState z ≤ blueScore initialState y)) :=
  ⟨(c4_evader_ai.1 c4PolicyState 0 (by decide)).1,
   (c4_evader_ai.1 c4PolicyState 0 (by decide)).2 5,
   c4_evader_ai.2.1 initialState (by decide) (by decide)⟩

/-- C5: the Pursuer AI targets the true Evader position exactly when the
current turn is visible and the last observed position otherwise, each
legal lane is scored by the specification formula −10·d − |Δx| with the
120 lock bonus, the nested 100 win-threshold bonus, and the hidden-turn
containment bonus 25 − 4·drift, and a maximum-score lane is returned,
uniformly among exact ties. -/
theorem c5_pursuer_ai :
    (∀ (s : MatchState) (y : Int), redScore s y = redScoreSpec s y)
    ∧ (∀ s : MatchState, getValidOrbs Player.B s.bPos.x ≠ [] →
        pickAIMoveCandidates s Player.B =
          (getValidOrbs Player.B s.bPos.x).filter fun y =>
            (getValidOrbs Player.B s.bPos.x).all fun z =>
              decide (redScore s z ≤ redScore s y))
    ∧ (∀ (s : MatchState) (r : Nat),
        pickAIMove s Player.B r ∈ pickAIMoveCandidates s Player.B) := by
  refine ⟨?_, ?_, fun s r => pickAIMove_mem s Player.B r⟩
  · intro s y
    simp only [redScore, redScoreSpec, redVisionNow]
    split_ifs <;> ring
  · intro s hne
    have hne2 : ¬(aiValidMoves s Player.B = []) := hne
    unfold pickAIMoveCandidates
    rw [if_neg hne2]
    exact bestByScore_eq_filter (redScore s) _ hne

/-- Witness for C5: the scoring identity at a concrete state and lane, and
the maximizer characterization at the initial state. -/
theorem c5_pursuer_ai_witness :
    redScore initialState 2 = redScoreSpec initialState 2 ∧
    pickAIMoveCandidates initialState Player.B =
      (getValidOrbs Player.B initialState.bPos.x).filter (fun y =>
        (getValidOrbs Player.B initialState.bPos.x).all fun z =>
          decide (redScore initialState z ≤ redScore initialState y)) :=
  ⟨c5_pursuer_ai.1 initialState 2, c5_pursuer_ai.2.1 initialState (by decide)⟩

end OrbitalPursuit
